import Mathlib

/-!
Verification of the Gemini service adapter (`ufo/llm/gemini.py`).

The module is shallowly embedded: bytes are `List Nat` (each `< 256`),
Python floats used for prices are modelled as exact rationals `ℚ`,
Python exceptions are modelled with `Except String`, and the vendor's
remote call is an oracle function supplied as an argument.
-/

namespace Gemini

/-- Run counter behind `wordCount`: walks the characters with a flag that
records whether the previous character was inside a word. -/
def wordCountAux : List Char → Bool → Nat
  | [], _ => 0
  | c :: cs, inWord =>
      if c.isWhitespace then wordCountAux cs false
      else (if inWord then 0 else 1) + wordCountAux cs true

/-- Word count as computed by Python's `len(s.split())`: the number of
maximal runs of non-whitespace characters. -/
def wordCount (s : String) : Nat := wordCountAux s.data false

/-! ## Base64 (Python `base64.b64encode` / `base64.b64decode`) -/

/-- The standard base64 alphabet, in index order. -/
def b64Alphabet : List Char :=
  [ 'A','B','C','D','E','F','G','H','I','J','K','L','M',
    'N','O','P','Q','R','S','T','U','V','W','X','Y','Z',
    'a','b','c','d','e','f','g','h','i','j','k','l','m',
    'n','o','p','q','r','s','t','u','v','w','x','y','z',
    '0','1','2','3','4','5','6','7','8','9','+','/' ]

/-- Character for a sextet value (0..63). -/
def alphaChar (n : Nat) : Char := b64Alphabet.getD n 'A'

/-- Sextet value of an alphabet character, `none` for non-alphabet characters. -/
def idxChar (c : Char) : Option Nat := b64Alphabet.indexOf? c

/-- Whether a character belongs to the base64 alphabet or is the pad character. -/
def validB64Char (c : Char) : Bool := b64Alphabet.contains c || c = '='

/-- Standard base64 encoding of a byte list, three bytes at a time,
with `=` padding, exactly as `base64.b64encode` produces. -/
def b64EncodeChunks : List Nat → List Char
  | [] => []
  | [b1] =>
      [alphaChar (b1 / 4), alphaChar (b1 % 4 * 16), '=', '=']
  | [b1, b2] =>
      [alphaChar (b1 / 4), alphaChar (b1 % 4 * 16 + b2 / 16),
       alphaChar (b2 % 16 * 4), '=']
  | b1 :: b2 :: b3 :: rest =>
      alphaChar (b1 / 4) :: alphaChar (b1 % 4 * 16 + b2 / 16) ::
      alphaChar (b2 % 16 * 4 + b3 / 64) :: alphaChar (b3 % 64) ::
      b64EncodeChunks rest

/-- Standard base64 encoding, as a string. -/
def b64encode (bs : List Nat) : String := String.mk (b64EncodeChunks bs)

/-- Decode a base64 character stream four characters at a time; padding is
accepted only in a final group. Any other shape is a `binascii` error. -/
def b64DecodeChunks : List Char → Except String (List Nat)
  | [] => Except.ok []
  | c1 :: c2 :: c3 :: c4 :: rest =>
      if c3 = '=' ∧ c4 = '=' ∧ rest = [] then
        match idxChar c1, idxChar c2 with
        | some s1, some s2 => Except.ok [s1 * 4 + s2 / 16]
        | _, _ => Except.error "binascii.Error: invalid base64 input"
      else if c4 = '=' ∧ rest = [] then
        match idxChar c1, idxChar c2, idxChar c3 with
        | some s1, some s2, some s3 =>
            Except.ok [s1 * 4 + s2 / 16, s2 % 16 * 16 + s3 / 4]
        | _, _, _ => Except.error "binascii.Error: invalid base64 input"
      else
        match idxChar c1, idxChar c2, idxChar c3, idxChar c4 with
        | some s1, some s2, some s3, some s4 =>
            match b64DecodeChunks rest with
            | Except.ok bs =>
                Except.ok ((s1 * 4 + s2 / 16) :: (s2 % 16 * 16 + s3 / 4) ::
                           (s3 % 4 * 64 + s4) :: bs)
            | Except.error e => Except.error e
        | _, _, _, _ => Except.error "binascii.Error: invalid base64 input"
  | _ => Except.error "binascii.Error: incorrect padding"

/-- Model of Python's `base64.b64decode` (default non-validating mode):
characters outside the alphabet and pad are discarded first, then the
remainder is decoded in groups of four; exact in particular on every
canonical encoder output, which is all this module ever feeds it. -/
def b64decode (s : String) : Except String (List Nat) :=
  b64DecodeChunks (s.data.filter validB64Char)

/-! ## Data-URL parsing, `GeminiService.base64_to_blob` -/

/-- The literal `;base64,` separator of the data-URL regex. -/
def markerL : List Char := [';', 'b', 'a', 's', 'e', '6', '4', ',']

/-- Boolean list-prefix test (the regex engine's literal matching). -/
def isPrefixOfL : List Char → List Char → Bool
  | [], _ => true
  | _ :: _, [] => false
  | a :: as, b :: bs => a == b && isPrefixOfL as bs

/-- Backtracking core of `re.match(r'data:(image/.+?);base64,(.+)', s)`,
started after the literal `data:image/` prefix. `acc` holds the characters
the lazy `.+?` has taken so far (it must take at least one); at each
position with nonempty `acc` the engine first tries the literal
`;base64,` followed by a nonempty run of non-newline payload characters,
and on failure extends the lazy group by one non-newline character. -/
def lazyMatch : List Char → List Char → Option (List Char × List Char)
  | [], _ => none
  | c :: cs, acc =>
      if acc ≠ [] ∧ isPrefixOfL markerL (c :: cs) = true ∧
          ((c :: cs).drop 8).takeWhile (fun d => d ≠ '\n') ≠ [] then
        some (acc, ((c :: cs).drop 8).takeWhile (fun d => d ≠ '\n'))
      else if c = '\n' then none
      else lazyMatch cs (acc ++ [c])

/-- Model of `re.match(r'data:(?P<mime_type>image/.+?);base64,(?P<base64_string>.+)', s)`:
on success returns the captured mime type (including its `image/` prefix)
and the payload group. -/
def matchDataUrl (s : String) : Option (String × String) :=
  if isPrefixOfL ("data:image/".data) s.data then
    match lazyMatch (s.data.drop 11) [] with
    | some (m, p) => some ("image/" ++ String.mk m, String.mk p)
    | none => none
  else none

/-- The structured image element: decoded mime type and raw bytes. -/
structure Blob where
  mime_type : String
  data : List Nat
deriving DecidableEq

/-- `GeminiService.base64_to_blob`: parse the data URL with the regex; on
mismatch print and raise `ValueError("Invalid data URL format.")`; on match
return the mime type and the base64-decoded bytes. -/
def base64_to_blob (s : String) : Except String Blob :=
  match matchDataUrl s with
  | none => Except.error "Invalid data URL format."
  | some (mime, payload) =>
      match b64decode payload with
      | Except.ok bs => Except.ok ⟨mime, bs⟩
      | Except.error e => Except.error e

/-! ## Messages and `GeminiService.process_messages` -/

/-- One content part of a non-system message: a tagged dict with `type`
equal to `text`, `image_url`, or anything else (carried as a tag). -/
inductive ContentPart where
  | text (t : String)
  | image_url (url : String)
  | other (ty : String)
deriving DecidableEq

/-- The `content` field of a message: a plain string or a part list. -/
inductive Content where
  | str (s : String)
  | parts (ps : List ContentPart)
deriving DecidableEq

/-- A role-tagged chat message. -/
structure Message where
  role : String
  content : Content
deriving DecidableEq

/-- One element of the translated prompt list: plain text, or the
mime-type/data dict built from a decoded image blob. -/
inductive Prompt where
  | text (s : String)
  | blob (mime_type : String) (data : List Nat)
deriving DecidableEq

/-- Approximation of Python's `str()` of a part-dict list, used only when a
system message carries a part list instead of a string (an input that
violates the documented data-model invariant and that no claim exercises);
braces are written as escapes. -/
def pyStrParts (ps : List ContentPart) : String :=
  "[" ++ String.intercalate ", " (ps.map fun p =>
    match p with
    | ContentPart.text t => "\x7btype: text, text: " ++ t ++ "\x7d"
    | ContentPart.image_url u => "\x7btype: image_url, image_url: " ++ u ++ "\x7d"
    | ContentPart.other ty => "\x7btype: " ++ ty ++ "\x7d") ++ "]"

/-- Python's f-string interpolation of a message's content. -/
def contentStr : Content → String
  | Content.str s => s
  | Content.parts ps => pyStrParts ps

/-- The inner loop of `process_messages` over a non-system message's part
list: `text` parts emit their literal text, `image_url` parts emit the
decoded blob (a parse failure aborts), any other type is skipped. -/
def processParts : List ContentPart → Except String (List Prompt)
  | [] => Except.ok []
  | ContentPart.text t :: ps =>
      match processParts ps with
      | Except.ok rest => Except.ok (Prompt.text t :: rest)
      | Except.error e => Except.error e
  | ContentPart.image_url u :: ps =>
      match base64_to_blob u with
      | Except.ok b =>
          match processParts ps with
          | Except.ok rest => Except.ok (Prompt.blob b.mime_type b.data :: rest)
          | Except.error e => Except.error e
      | Except.error e => Except.error e
  | ContentPart.other _ :: ps => processParts ps

/-- `GeminiService.process_messages`: a system message contributes the
single string `"Your general instruction: " ++ content`; any other message
has its part list walked by `processParts`. A non-system message whose
content is a plain string makes Python iterate its characters and index
them with a string key, a `TypeError` — except for the empty string, whose
loop body never runs. -/
def process_messages : List Message → Except String (List Prompt)
  | [] => Except.ok []
  | m :: ms =>
      if m.role = "system" then
        match process_messages ms with
        | Except.ok rest =>
            Except.ok (Prompt.text ("Your general instruction: " ++ contentStr m.content) :: rest)
        | Except.error e => Except.error e
      else
        match m.content with
        | Content.parts ps =>
            match processParts ps with
            | Except.ok here =>
                match process_messages ms with
                | Except.ok rest => Except.ok (here ++ rest)
                | Except.error e => Except.error e
            | Except.error e => Except.error e
        | Content.str s =>
            if s = "" then process_messages ms
            else Except.error "TypeError: string indices must be integers"

/-! ## Response objects and `GeminiService.get_text_from_all_candidates` -/

/-- One part of a candidate's content. `text` is `some` exactly when the
part has a `text` attribute holding a string; `thought` is true exactly
when the part has a truthy `thought` attribute; `otherFields` lists, in
attribute order, the names of the part's other attributes whose value is
not `None`. -/
structure GPart where
  text : Option String
  thought : Bool
  otherFields : List String
deriving DecidableEq

/-- A candidate; `contentParts` is `none` when the candidate lacks the
nested `content`/`parts` structure. -/
structure GCandidate where
  contentParts : Option (List GPart)
deriving DecidableEq

/-- A provider response: absent (falsy, or without a `candidates`
attribute) or a list of possibly-absent candidates. -/
inductive GResponse where
  | absent
  | withCandidates (cs : List (Option GCandidate))
deriving DecidableEq

/-- The per-candidate accumulation loop: running text, whether any
qualifying text part was found, and the distinct non-text field names seen
so far (used only for a warning). A part with a string `text` attribute is
skipped entirely when flagged as a thought, otherwise its text is appended
and the found flag set. -/
def extractLoop : List GPart → String → Bool → List String → String × Bool × List String
  | [], t, f, o => (t, f, o)
  | p :: ps, t, f, o =>
      let o' := p.otherFields.foldl (fun acc n => if n ∈ acc then acc else acc ++ [n]) o
      match p.text with
      | some s => if p.thought then extractLoop ps t f o' else extractLoop ps (t ++ s) true o'
      | none => extractLoop ps t f o'

/-- Per-candidate extraction: `none` for an absent candidate or one without
the content/parts structure; otherwise the accumulated text if any
qualifying text part was found, else `none`. -/
def extractCandidate : Option GCandidate → Option String
  | none => none
  | some c =>
      match c.contentParts with
      | none => none
      | some ps =>
          match extractLoop ps "" false [] with
          | (t, found, _) => if found then some t else none

/-- `GeminiService.get_text_from_all_candidates`: empty list when the
response is absent, otherwise one entry per candidate. -/
def get_text_from_all_candidates : GResponse → List (Option String)
  | GResponse.absent => []
  | GResponse.withCandidates cs => cs.map extractCandidate

/-- Modelled from the spec: the vendor SDK accessor `response.text`, which
the source uses for the output word count and which is not part of this
repository; per the spec it is "the concatenation of the first candidate's
extracted text", and it raises when no such text exists (`none` here). -/
def responseText : GResponse → Option String
  | GResponse.absent => none
  | GResponse.withCandidates [] => none
  | GResponse.withCandidates (oc :: _) => extractCandidate oc

/-! ## Configuration and `GeminiService.chat_completion` -/

/-- The configuration slice `chat_completion` reads, with prices as exact
rationals: `MODEL_COSTS` maps a model name to its
(`input_cost`, `output_cost`) pair, `ENABLE_COST_TRACKING` defaults to
false, and `MAX_TOKENS`/`TEMPERATURE`/`TOP_P` are the process-wide
generation defaults. `MAX_RETRY` is stored but never consulted here. -/
structure Config where
  modelName : String
  maxRetry : Nat
  maxTokens : Nat
  temperature : ℚ
  topP : ℚ
  enableCostTracking : Bool
  modelCosts : List (String × ℚ × ℚ)

/-- The three-field generation config sent with the request. -/
structure GenConfig where
  max_output_tokens : Nat
  temperature : ℚ
  top_p : ℚ
deriving DecidableEq

/-- Assembly of the generation config: each explicit argument overrides the
process-wide default when present. -/
def makeGenConfig (cfg : Config) (temperature : Option ℚ) (maxTokens : Option Nat)
    (topP : Option ℚ) : GenConfig :=
  ⟨maxTokens.getD cfg.maxTokens, temperature.getD cfg.temperature, topP.getD cfg.topP⟩

/-- The input-token estimate
`sum(len(msg.get("content", "").split()) for msg in messages)`: word count
of each message's string content; a list-valued content has no `split`
method, an `AttributeError`. -/
def inputTokens : List Message → Except String Nat
  | [] => Except.ok 0
  | m :: ms =>
      match m.content with
      | Content.str s =>
          match inputTokens ms with
          | Except.ok k => Except.ok (wordCount s + k)
          | Except.error e => Except.error e
      | Content.parts _ => Except.error "AttributeError: list object has no attribute split"

/-- `GeminiService.chat_completion`. The remote call is an oracle function
from the translated contents and generation config to a response. Cost is
computed only when `ENABLE_COST_TRACKING` is set: unit costs come from
`MODEL_COSTS` keyed by the model name, defaulting to zero; the output count
splits the SDK's `response.text`, which raises when absent. The unused `n`
and keyword arguments are kept to mirror the source signature. -/
def chat_completion (cfg : Config) (messages : List Message) (n : Nat)
    (temperature : Option ℚ) (maxTokens : Option Nat) (topP : Option ℚ)
    (kwargs : List (String × String))
    (remote : List Prompt → GenConfig → GResponse) :
    Except String (List (Option String) × ℚ) :=
  match process_messages messages with
  | Except.error e => Except.error e
  | Except.ok gemini_messages =>
      let genai_config := makeGenConfig cfg temperature maxTokens topP
      let response := remote gemini_messages genai_config
      let costRes : Except String ℚ :=
        if cfg.enableCostTracking then
          let mc := List.lookup cfg.modelName cfg.modelCosts
          let input_cost : ℚ := (mc.map Prod.fst).getD 0
          let output_cost : ℚ := (mc.map fun p => p.2).getD 0
          match inputTokens messages with
          | Except.error e => Except.error e
          | Except.ok input_tokens =>
              match responseText response with
              | none => Except.error "ValueError: response.text requires a text part"
              | some t =>
                  Except.ok ((input_tokens : ℚ) * input_cost + (wordCount t : ℚ) * output_cost)
        else Except.ok 0
      match costRes with
      | Except.error e => Except.error e
      | Except.ok cost => Except.ok (get_text_from_all_candidates response, cost)

/-! ## Spec-side restatements used by refinement claims -/

/-- Messages whose content is entirely plain text: system messages carry a
string, any other role carries a part list of text parts only. -/
def TextOnly (ms : List Message) : Prop :=
  ∀ m ∈ ms,
    (m.role = "system" ∧ ∃ s, m.content = Content.str s) ∨
    (m.role ≠ "system" ∧ ∃ ps, m.content = Content.parts ps ∧
      ∀ p ∈ ps, ∃ t, p = ContentPart.text t)

/-- Stated from the spec for the text-only case: the in-order flattening in
which a system message with content `X` contributes exactly the element
`"Your general instruction: X"` and every text part of a non-system
message contributes its literal text. -/
def translateSpecTextOnly (ms : List Message) : List Prompt :=
  ms.flatMap fun m =>
    if m.role = "system" then
      match m.content with
      | Content.str s => [Prompt.text ("Your general instruction: " ++ s)]
      | Content.parts _ => []
    else
      match m.content with
      | Content.str _ => []
      | Content.parts ps =>
          ps.filterMap fun p =>
            match p with
            | ContentPart.text t => some (Prompt.text t)
            | ContentPart.image_url _ => none
            | ContentPart.other _ => none

/-- A response part qualifies when it has string text and is not flagged
as a thought. -/
def specQualifying (p : GPart) : Bool := p.text.isSome && !p.thought

/-- Stated from the spec: the concatenation, in part order and with no
separator, of the text of every part not flagged as a thought. -/
def specText (ps : List GPart) : String :=
  (ps.filterMap fun p => if p.thought then none else p.text).foldr (fun a b => a ++ b) ""

/-- Stated from the spec for the all-string case: total whitespace word
count of the string contents, a part list counting zero. -/
def inputWords (ms : List Message) : Nat :=
  (ms.map fun m =>
    match m.content with
    | Content.str s => wordCount s
    | Content.parts _ => 0).sum

/-! ## Base64 lemmas -/

/-- Every sextet character is in the alphabet (out-of-range indices give
the default character, itself in the alphabet). -/
theorem alphaChar_mem (n : Nat) : alphaChar n ∈ b64Alphabet := by
  unfold alphaChar
  by_cases h : n < 64
  · exact (by decide : ∀ m, m < 64 → b64Alphabet.getD m 'A' ∈ b64Alphabet) n h
  · rw [List.getD_eq_default]
    · decide
    · have hl : b64Alphabet.length = 64 := by decide
      omega

/-- Alphabet characters are valid and are not pad, newline or semicolon. -/
theorem mem_alphabet_props :
    ∀ c ∈ b64Alphabet, validB64Char c = true ∧ c ≠ '=' ∧ c ≠ '\n' ∧ c ≠ ';' := by
  decide

theorem validB64Char_alphaChar (n : Nat) : validB64Char (alphaChar n) = true :=
  (mem_alphabet_props _ (alphaChar_mem n)).1

theorem alphaChar_ne_pad (n : Nat) : alphaChar n ≠ '=' :=
  (mem_alphabet_props _ (alphaChar_mem n)).2.1

theorem alphaChar_ne_newline (n : Nat) : alphaChar n ≠ '\n' :=
  (mem_alphabet_props _ (alphaChar_mem n)).2.2.1

theorem validB64Char_pad : validB64Char '=' = true := by decide

/-- Index lookup inverts the alphabet on sextet values. -/
theorem idxChar_alphaChar : ∀ n, n < 64 → idxChar (alphaChar n) = some n := by
  decide

/-- Decoding inverts encoding chunk by chunk, for byte inputs. -/
theorem b64DecodeChunks_encode :
    ∀ bs : List Nat, (∀ b ∈ bs, b < 256) →
      b64DecodeChunks (b64EncodeChunks bs) = Except.ok bs
  | [], _ => rfl
  | [b1], h => by
      have hb1 : b1 < 256 := h b1 (by simp)
      have h1 : b1 / 4 < 64 := by omega
      have h2 : b1 % 4 * 16 < 64 := by omega
      simp only [b64EncodeChunks, b64DecodeChunks]
      rw [if_pos (by simp), idxChar_alphaChar _ h1, idxChar_alphaChar _ h2]
      simp only [Except.ok.injEq, List.cons.injEq, and_true]
      omega
  | [b1, b2], h => by
      have hb1 : b1 < 256 := h b1 (by simp)
      have hb2 : b2 < 256 := h b2 (by simp)
      have h1 : b1 / 4 < 64 := by omega
      have h2 : b1 % 4 * 16 + b2 / 16 < 64 := by omega
      have h3 : b2 % 16 * 4 < 64 := by omega
      simp only [b64EncodeChunks, b64DecodeChunks]
      rw [if_neg (by simp [alphaChar_ne_pad]), if_pos (by simp),
        idxChar_alphaChar _ h1, idxChar_alphaChar _ h2, idxChar_alphaChar _ h3]
      simp only [Except.ok.injEq, List.cons.injEq, and_true]
      omega
  | b1 :: b2 :: b3 :: b4 :: rest, h => by
      have hb1 : b1 < 256 := h b1 (by simp)
      have hb2 : b2 < 256 := h b2 (by simp)
      have hb3 : b3 < 256 := h b3 (by simp)
      have h1 : b1 / 4 < 64 := by omega
      have h2 : b1 % 4 * 16 + b2 / 16 < 64 := by omega
      have h3 : b2 % 16 * 4 + b3 / 64 < 64 := by omega
      have h4 : b3 % 64 < 64 := by omega
      have ih := b64DecodeChunks_encode (b4 :: rest) (fun b hb => h b (by simp at hb ⊢; tauto))
      simp only [b64EncodeChunks, b64DecodeChunks]
      rw [if_neg (by simp [alphaChar_ne_pad]), if_neg (by simp [alphaChar_ne_pad]),
        idxChar_alphaChar _ h1, idxChar_alphaChar _ h2,
        idxChar_alphaChar _ h3, idxChar_alphaChar _ h4, ih]
      simp only [Except.ok.injEq, List.cons.injEq, and_true]
      omega
  | [b1, b2, b3], h => by
      have hb1 : b1 < 256 := h b1 (by simp)
      have hb2 : b2 < 256 := h b2 (by simp)
      have hb3 : b3 < 256 := h b3 (by simp)
      have h1 : b1 / 4 < 64 := by omega
      have h2 : b1 % 4 * 16 + b2 / 16 < 64 := by omega
      have h3 : b2 % 16 * 4 + b3 / 64 < 64 := by omega
      have h4 : b3 % 64 < 64 := by omega
      simp only [b64EncodeChunks, b64DecodeChunks]
      rw [if_neg (by simp [alphaChar_ne_pad]), if_neg (by simp [alphaChar_ne_pad]),
        idxChar_alphaChar _ h1, idxChar_alphaChar _ h2,
        idxChar_alphaChar _ h3, idxChar_alphaChar _ h4]
      simp only [b64EncodeChunks, b64DecodeChunks, Except.ok.injEq, List.cons.injEq,
        and_true]
      omega

/-- Encoder output contains only alphabet and pad characters. -/
theorem mem_b64EncodeChunks :
    ∀ bs : List Nat, ∀ c ∈ b64EncodeChunks bs, c ∈ b64Alphabet ∨ c = '='
  | [], c, hc => by simp [b64EncodeChunks] at hc
  | [b1], c, hc => by
      simp only [b64EncodeChunks, List.mem_cons, List.not_mem_nil, or_false] at hc
      rcases hc with rfl | rfl | rfl | rfl
      · exact Or.inl (alphaChar_mem _)
      · exact Or.inl (alphaChar_mem _)
      · exact Or.inr rfl
      · exact Or.inr rfl
  | [b1, b2], c, hc => by
      simp only [b64EncodeChunks, List.mem_cons, List.not_mem_nil, or_false] at hc
      rcases hc with rfl | rfl | rfl | rfl
      · exact Or.inl (alphaChar_mem _)
      · exact Or.inl (alphaChar_mem _)
      · exact Or.inl (alphaChar_mem _)
      · exact Or.inr rfl
  | b1 :: b2 :: b3 :: rest, c, hc => by
      simp only [b64EncodeChunks, List.mem_cons] at hc
      rcases hc with rfl | rfl | rfl | rfl | hc
      · exact Or.inl (alphaChar_mem _)
      · exact Or.inl (alphaChar_mem _)
      · exact Or.inl (alphaChar_mem _)
      · exact Or.inl (alphaChar_mem _)
      · exact mem_b64EncodeChunks rest c hc

/-- Filtering the encoder output by validity keeps every character. -/
theorem filter_b64EncodeChunks (bs : List Nat) :
    (b64EncodeChunks bs).filter validB64Char = b64EncodeChunks bs := by
  apply List.filter_eq_self.mpr
  intro c hc
  rcases mem_b64EncodeChunks bs c hc with hm | rfl
  · exact (mem_alphabet_props _ hm).1
  · exact validB64Char_pad

/-- Encoding a nonempty byte list yields a nonempty character list. -/
theorem b64EncodeChunks_ne_nil : ∀ b1 : Nat, ∀ bs : List Nat,
    b64EncodeChunks (b1 :: bs) ≠ []
  | _, [] => by simp [b64EncodeChunks]
  | _, [_] => by simp [b64EncodeChunks]
  | _, _ :: _ :: _ => by simp [b64EncodeChunks]

/-- Round trip at the string level: `b64decode` inverts `b64encode`. -/
theorem b64decode_b64encode (bs : List Nat) (h : ∀ b ∈ bs, b < 256) :
    b64decode (b64encode bs) = Except.ok bs := by
  unfold b64decode b64encode
  rw [show (String.mk (b64EncodeChunks bs)).data = b64EncodeChunks bs from rfl,
    filter_b64EncodeChunks, b64DecodeChunks_encode bs h]

/-! ## Data-URL matcher lemmas -/

/-- A literal prefix is accepted by the prefix test. -/
theorem isPrefixOfL_append : ∀ l r : List Char, isPrefixOfL l (l ++ r) = true
  | [], _ => rfl
  | a :: as, r => by simp [isPrefixOfL, isPrefixOfL_append as r]

/-- The marker starts with a semicolon, so it is not a prefix of a list
starting with any other character. -/
theorem marker_head_mismatch {c : Char} (h : c ≠ ';') (cs : List Char) :
    isPrefixOfL markerL (c :: cs) = false := by
  simp [markerL, isPrefixOfL]
  intro hc
  exact absurd hc.symm h

/-- Lists without newlines are kept whole by the payload `takeWhile`. -/
theorem takeWhile_no_newline :
    ∀ l : List Char, (∀ c ∈ l, c ≠ '\n') →
      l.takeWhile (fun d => d ≠ '\n') = l
  | [], _ => rfl
  | c :: cs, h => by
      simp only [List.takeWhile_cons]
      rw [if_pos (by simpa using h c (by simp)),
        takeWhile_no_newline cs (fun d hd => h d (by simp [hd]))]

/-- The lazy matcher scans over semicolon-free mime characters and stops
exactly at the marker, capturing the whole newline-free nonempty payload. -/
theorem lazyMatch_exact (payload : List Char) (hp : payload ≠ [])
    (hpc : ∀ c ∈ payload, c ≠ '\n') :
    ∀ sub acc : List Char, (∀ c ∈ sub, c ≠ ';' ∧ c ≠ '\n') → acc ++ sub ≠ [] →
      lazyMatch (sub ++ markerL ++ payload) acc = some (acc ++ sub, payload)
  | [], acc, _, hne => by
      have hacc : acc ≠ [] := by simpa using hne
      simp only [List.nil_append]
      rw [show markerL ++ payload =
        ';' :: (['b', 'a', 's', 'e', '6', '4', ','] ++ payload) from rfl]
      rw [lazyMatch]
      rw [if_pos ⟨hacc, by
        have h1 := isPrefixOfL_append markerL payload
        exact ⟨h1, by
          rw [show (';' :: (['b', 'a', 's', 'e', '6', '4', ','] ++ payload)).drop 8 =
            payload from rfl, takeWhile_no_newline payload hpc]
          exact hp⟩⟩]
      rw [show (';' :: (['b', 'a', 's', 'e', '6', '4', ','] ++ payload)).drop 8 =
        payload from rfl, takeWhile_no_newline payload hpc]
      simp
  | c :: sub, acc, hsub, _ => by
      have hc : c ≠ ';' ∧ c ≠ '\n' := hsub c (by simp)
      have hrest : ∀ d ∈ sub, d ≠ ';' ∧ d ≠ '\n' := fun d hd => hsub d (by simp [hd])
      have ih := lazyMatch_exact payload hp hpc sub (acc ++ [c]) hrest (by simp)
      simp only [List.cons_append]
      rw [lazyMatch]
      rw [if_neg (by simp [marker_head_mismatch hc.1]), if_neg hc.2, ih]
      simp

/-- A well-formed data URL with a semicolon-free, newline-free, nonempty
subtype and a newline-free nonempty payload is parsed into its mime type
and payload groups. -/
theorem matchDataUrl_wellformed (sub payload : String) (hsub : sub.data ≠ [])
    (hsubc : ∀ c ∈ sub.data, c ≠ ';' ∧ c ≠ '\n')
    (hp : payload.data ≠ []) (hpc : ∀ c ∈ payload.data, c ≠ '\n') :
    matchDataUrl ("data:image/" ++ sub ++ ";base64," ++ payload) =
      some ("image/" ++ sub, payload) := by
  have hdata : ("data:image/" ++ sub ++ ";base64," ++ payload).data =
      "data:image/".data ++ (sub.data ++ markerL ++ payload.data) := by
    simp [String.data_append, markerL]
  unfold matchDataUrl
  rw [hdata, if_pos (isPrefixOfL_append _ _)]
  have hdrop : ("data:image/".data ++ (sub.data ++ markerL ++ payload.data)).drop 11 =
      sub.data ++ markerL ++ payload.data := by
    have : ("data:image/".data).length = 11 := by decide
    rw [← this, List.drop_left]
  rw [hdrop, lazyMatch_exact payload.data hp hpc sub.data [] hsubc (by simpa using hsub)]
  simp

/-! ## Translation lemmas -/

/-- A run of text parts translates to its literal texts followed by the
translation of the remainder. -/
theorem processParts_texts :
    ∀ ps : List ContentPart, (∀ p ∈ ps, ∃ t, p = ContentPart.text t) →
      ∀ rest : List ContentPart, ∀ l : List Prompt,
        processParts rest = Except.ok l →
        processParts (ps ++ rest) =
          Except.ok ((ps.filterMap fun p =>
            match p with
            | ContentPart.text t => some (Prompt.text t)
            | ContentPart.image_url _ => none
            | ContentPart.other _ => none) ++ l)
  | [], _, rest, l, hrest => by simpa using hrest
  | p :: ps, hps, rest, l, hrest => by
      obtain ⟨t, rfl⟩ := hps p (by simp)
      have ih := processParts_texts ps (fun q hq => hps q (by simp [hq])) rest l hrest
      simp only [List.cons_append, processParts, List.append_eq, ih, List.filterMap_cons]

/-- An error in the remainder of a part list passes through a run of text
parts unchanged. -/
theorem processParts_texts_error :
    ∀ ps : List ContentPart, (∀ p ∈ ps, ∃ t, p = ContentPart.text t) →
      ∀ rest : List ContentPart, ∀ e : String,
        processParts rest = Except.error e →
        processParts (ps ++ rest) = Except.error e
  | [], _, rest, e, hrest => by simpa using hrest
  | p :: ps, hps, rest, e, hrest => by
      obtain ⟨t, rfl⟩ := hps p (by simp)
      have ih := processParts_texts_error ps (fun q hq => hps q (by simp [hq])) rest e hrest
      simp only [List.cons_append, processParts, List.append_eq, ih]

/-- Skipping an unknown part type leaves the rest of the translation
untouched. -/
theorem processParts_skip_other :
    ∀ pre : List ContentPart, ∀ ty : String, ∀ post : List ContentPart,
      processParts (pre ++ ContentPart.other ty :: post) = processParts (pre ++ post)
  | [], ty, post => by simp [processParts]
  | p :: pre, ty, post => by
      have ih := processParts_skip_other pre ty post
      cases p with
      | text t => simp only [List.cons_append, processParts, List.append_eq, ih]
      | image_url u => simp only [List.cons_append, processParts, List.append_eq, ih]
      | other ty2 => simp only [List.cons_append, processParts, List.append_eq, ih]

/-- Translation of a text-only message list succeeds with the spec's
flattening. -/
theorem process_messages_textOnly :
    ∀ ms : List Message, TextOnly ms →
      process_messages ms = Except.ok (translateSpecTextOnly ms)
  | [], _ => rfl
  | m :: ms, h => by
      have ih := process_messages_textOnly ms (fun q hq => h q (by simp [hq]))
      rcases h m (by simp) with ⟨hrole, s, hc⟩ | ⟨hrole, ps, hc, hps⟩
      · simp only [process_messages, if_pos hrole, ih, translateSpecTextOnly,
          List.flatMap_cons, hc, if_pos hrole, contentStr]
        rfl
      · have htexts := processParts_texts ps hps [] [] rfl
        simp only [List.append_nil] at htexts
        simp only [process_messages, if_neg hrole, hc, htexts, ih, translateSpecTextOnly,
          List.flatMap_cons, if_neg hrole]

/-! ## Extraction lemmas -/

/-- The accumulation loop appends exactly the spec's concatenation and
disjoins the spec's found flag. -/
theorem extractLoop_spec :
    ∀ ps : List GPart, ∀ t : String, ∀ f : Bool, ∀ o : List String,
      (extractLoop ps t f o).1 = t ++ specText ps ∧
      (extractLoop ps t f o).2.1 = (f || ps.any specQualifying)
  | [], t, f, o => by simp [extractLoop, specText]
  | p :: ps, t, f, o => by
      cases hp : p.text with
      | none =>
          have ih := extractLoop_spec ps t f
            (p.otherFields.foldl (fun acc n => if n ∈ acc then acc else acc ++ [n]) o)
          refine ⟨?_, ?_⟩
          · simp only [extractLoop, hp]
            rw [ih.1]
            simp [specText, List.filterMap_cons, hp]
          · simp only [extractLoop, hp]
            rw [ih.2]
            simp [specQualifying, hp]
      | some w =>
          cases hth : p.thought with
          | true =>
              have ih := extractLoop_spec ps t f
                (p.otherFields.foldl (fun acc n => if n ∈ acc then acc else acc ++ [n]) o)
              refine ⟨?_, ?_⟩
              · simp only [extractLoop, hp, hth]
                rw [if_pos trivial, ih.1]
                simp [specText, List.filterMap_cons, hth]
              · simp only [extractLoop, hp, hth]
                rw [if_pos trivial, ih.2]
                simp [specQualifying, hth]
          | false =>
              have ih := extractLoop_spec ps (t ++ w) true
                (p.otherFields.foldl (fun acc n => if n ∈ acc then acc else acc ++ [n]) o)
              refine ⟨?_, ?_⟩
              · simp only [extractLoop, hp, hth]
                rw [if_neg (by simp), ih.1]
                simp [specText, List.filterMap_cons, hp, hth, String.append_assoc]
              · simp only [extractLoop, hp, hth]
                rw [if_neg (by simp), ih.2]
                simp [specQualifying, hp, hth]

/-- Extraction of a present candidate matches the spec's text-or-absent
value. -/
theorem extractCandidate_spec (ps : List GPart) :
    extractCandidate (some ⟨some ps⟩) =
      if ps.any specQualifying then some (specText ps) else none := by
  have h := extractLoop_spec ps "" false []
  simp only [extractCandidate]
  obtain ⟨h1, h2⟩ := h
  rcases he : extractLoop ps "" false [] with ⟨t, f, o⟩
  rw [he] at h1 h2
  simp only at h1 h2
  subst h1
  rw [h2]
  simp

/-! ## Cost lemmas -/

/-- On all-string contents the input-token estimate succeeds with the
spec's word total. -/
theorem inputTokens_strings :
    ∀ ms : List Message, (∀ m ∈ ms, ∃ s, m.content = Content.str s) →
      inputTokens ms = Except.ok (inputWords ms)
  | [], _ => rfl
  | m :: ms, h => by
      obtain ⟨s, hs⟩ := h m (by simp)
      have ih := inputTokens_strings ms (fun q hq => h q (by simp [hq]))
      simp [inputTokens, hs, ih, inputWords]

/-- Messages that are system messages or have empty string content
translate without error. -/
theorem process_messages_ok_of_simple :
    ∀ ms : List Message,
      (∀ m ∈ ms, m.role = "system" ∨ m.content = Content.str "") →
      ∃ l, process_messages ms = Except.ok l
  | [], _ => ⟨[], rfl⟩
  | m :: ms, h => by
      obtain ⟨l, hl⟩ := process_messages_ok_of_simple ms (fun q hq => h q (by simp [hq]))
      rcases h m (by simp) with hrole | hc
      · exact ⟨Prompt.text ("Your general instruction: " ++ contentStr m.content) :: l,
          by simp [process_messages, hrole, hl]⟩
      · by_cases hrole : m.role = "system"
        · exact ⟨Prompt.text ("Your general instruction: " ++ contentStr m.content) :: l,
            by simp [process_messages, hrole, hl]⟩
        · exact ⟨l, by simp [process_messages, hrole, hc, hl]⟩

/-! ## Claims -/

/-- C1 (counterexample): with cost tracking enabled, a message whose
content is a part list (here one text part and one image part) does not
contribute its words-with-images-as-zero to the cost; instead the
word-count split fails on the list content and `chat_completion` raises,
so the claimed cost formula does not hold for every input message list. -/
theorem c1_cost_image_counterexample :
    chat_completion
      ⟨"gemini-pro", 3, 1024, 1, 1, true, [("gemini-pro", 1/100, 1/50)]⟩
      [⟨"user", Content.parts [ContentPart.text "hello hi",
        ContentPart.image_url "data:image/png;base64,aGk="]⟩]
      1 none none none []
      (fun _ _ => GResponse.withCandidates [some ⟨some [⟨some "ok", false, []⟩]⟩]) =
      Except.error "AttributeError: list object has no attribute split" := by
  rfl

/-- C1 (amended): when cost tracking is enabled and every message carries
literal string content that the call path accepts (system role, or a
non-system role with empty string content), the returned cost is the total
input word count times the model's input cost plus the first candidate's
output word count times the model's output cost, with unit costs looked up
in `MODEL_COSTS` and defaulting to zero. -/
theorem c1_cost_amended (cfg : Config) (hc : cfg.enableCostTracking = true)
    (ms : List Message)
    (hms : ∀ m ∈ ms, (m.role = "system" ∧ ∃ s, m.content = Content.str s) ∨
      (m.role ≠ "system" ∧ m.content = Content.str ""))
    (resp : GResponse) (t : String) (ht : responseText resp = some t)
    (n : Nat) (temperature : Option ℚ) (maxTokens : Option Nat) (topP : Option ℚ)
    (kwargs : List (String × String)) :
    chat_completion cfg ms n temperature maxTokens topP kwargs (fun _ _ => resp) =
      Except.ok (get_text_from_all_candidates resp,
        (inputWords ms : ℚ) *
          ((List.lookup cfg.modelName cfg.modelCosts).map Prod.fst).getD 0 +
        (wordCount t : ℚ) *
          ((List.lookup cfg.modelName cfg.modelCosts).map fun p => p.2).getD 0) := by
  have hsimple : ∀ m ∈ ms, m.role = "system" ∨ m.content = Content.str "" := by
    intro m hm
    rcases hms m hm with ⟨h1, _⟩ | ⟨_, h2⟩
    · exact Or.inl h1
    · exact Or.inr h2
  have hstr : ∀ m ∈ ms, ∃ s, m.content = Content.str s := by
    intro m hm
    rcases hms m hm with ⟨_, hs⟩ | ⟨_, h2⟩
    · exact hs
    · exact ⟨"", h2⟩
  obtain ⟨l, hl⟩ := process_messages_ok_of_simple ms hsimple
  have htok := inputTokens_strings ms hstr
  simp [chat_completion, hl, htok, ht, hc]

/-- C1 (witness): ten input words and five output words at input cost 1/100
and output cost 1/50 give exactly 1/5, the spec's 0.20 example. -/
theorem c1_cost_amended_witness :
    chat_completion
      ⟨"gemini-pro", 3, 1024, 1, 1, true, [("gemini-pro", 1/100, 1/50)]⟩
      [⟨"system", Content.str "w1 w2 w3 w4 w5 w6 w7 w8 w9 w10"⟩]
      1 none none none []
      (fun _ _ => GResponse.withCandidates
        [some ⟨some [⟨some "o1 o2 o3 o4 o5", false, []⟩]⟩]) =
      Except.ok ([some "o1 o2 o3 o4 o5"], 1/5) := by
  have h := c1_cost_amended
    ⟨"gemini-pro", 3, 1024, 1, 1, true, [("gemini-pro", 1/100, 1/50)]⟩ rfl
    [⟨"system", Content.str "w1 w2 w3 w4 w5 w6 w7 w8 w9 w10"⟩]
    (by
      intro m hm
      simp only [List.mem_singleton] at hm
      subst hm
      exact Or.inl ⟨rfl, "w1 w2 w3 w4 w5 w6 w7 w8 w9 w10", rfl⟩)
    (GResponse.withCandidates [some ⟨some [⟨some "o1 o2 o3 o4 o5", false, []⟩]⟩])
    "o1 o2 o3 o4 o5" (by rfl) 1 none none none []
  rw [h]
  have e1 : inputWords [⟨"system", Content.str "w1 w2 w3 w4 w5 w6 w7 w8 w9 w10"⟩] = 10 := by
    decide
  have e2 : wordCount "o1 o2 o3 o4 o5" = 5 := by decide
  have e3 : get_text_from_all_candidates
      (GResponse.withCandidates [some ⟨some [⟨some "o1 o2 o3 o4 o5", false, []⟩]⟩]) =
      [some "o1 o2 o3 o4 o5"] := by decide
  rw [e1, e2, e3]
  norm_num [List.lookup]

/-- C2: for message lists containing only plain-text content, translation
succeeds and returns exactly the in-order flattening in which a system
message with content X contributes the single element
"Your general instruction: X" and each text part of a non-system message
contributes its literal text. -/
theorem c2_translate_text_only (ms : List Message) (h : TextOnly ms) :
    process_messages ms = Except.ok (translateSpecTextOnly ms) :=
  process_messages_textOnly ms h

/-- C2 (witness): a system message followed by a user message with two text
parts flattens in order. -/
theorem c2_translate_text_only_witness :
    process_messages [⟨"system", Content.str "Be careful"⟩,
      ⟨"user", Content.parts [ContentPart.text "a", ContentPart.text "b"]⟩] =
      Except.ok [Prompt.text "Your general instruction: Be careful",
        Prompt.text "a", Prompt.text "b"] := by
  have h := c2_translate_text_only
    [⟨"system", Content.str "Be careful"⟩,
      ⟨"user", Content.parts [ContentPart.text "a", ContentPart.text "b"]⟩]
    (by
      intro m hm
      rcases List.mem_cons.mp hm with rfl | hm
      · exact Or.inl ⟨rfl, "Be careful", rfl⟩
      rcases List.mem_cons.mp hm with rfl | hm
      · refine Or.inr ⟨by decide, [ContentPart.text "a", ContentPart.text "b"], rfl, ?_⟩
        intro q hq
        rcases List.mem_cons.mp hq with rfl | hq
        · exact ⟨"a", rfl⟩
        rcases List.mem_cons.mp hq with rfl | hq
        · exact ⟨"b", rfl⟩
        · simp at hq
      · simp at hm)
  rw [h]
  rfl

/-- C3 (counterexample): the empty byte sequence encodes to the empty
payload, and the resulting data URL is rejected with the invalid-format
error instead of round-tripping, so the round trip does not hold for every
byte sequence. -/
theorem c3_roundtrip_counterexample :
    b64encode [] = "" ∧
    base64_to_blob ("data:image/png;base64," ++ b64encode []) =
      Except.error "Invalid data URL format." := by
  exact ⟨rfl, by rfl⟩

/-- C3 (amended): for every nonempty byte sequence and every mime subtype
that is nonempty and free of semicolons and newlines, encoding the bytes
as a standard base64 data URL and passing it to `base64_to_blob` returns
exactly the mime type and the original bytes. -/
theorem c3_roundtrip_amended (bs : List Nat) (hne : bs ≠ []) (hb : ∀ b ∈ bs, b < 256)
    (sub : String) (hsub : sub.data ≠ [])
    (hsubc : ∀ c ∈ sub.data, c ≠ ';' ∧ c ≠ '\n') :
    base64_to_blob ("data:image/" ++ sub ++ ";base64," ++ b64encode bs) =
      Except.ok ⟨"image/" ++ sub, bs⟩ := by
  have hpne : (b64encode bs).data ≠ [] := by
    cases bs with
    | nil => exact absurd rfl hne
    | cons b1 rest => exact b64EncodeChunks_ne_nil b1 rest
  have hpc : ∀ c ∈ (b64encode bs).data, c ≠ '\n' := by
    intro c hc
    rcases mem_b64EncodeChunks bs c hc with hm | rfl
    · exact (mem_alphabet_props c hm).2.2.1
    · decide
  have hm := matchDataUrl_wellformed sub (b64encode bs) hsub hsubc hpne hpc
  unfold base64_to_blob
  rw [hm]
  simp [b64decode_b64encode bs hb]

/-- C3 (witness): the bytes 104, 105 round-trip through the data URL with
subtype png. -/
theorem c3_roundtrip_amended_witness :
    base64_to_blob ("data:image/" ++ "png" ++ ";base64," ++ b64encode [104, 105]) =
      Except.ok ⟨"image/" ++ "png", [104, 105]⟩ :=
  c3_roundtrip_amended [104, 105] (by decide) (by decide) "png" (by decide) (by decide)

/-- C4: a data URL the regex rejects — for example one missing the
base64 marker or one with a non-image mime prefix — makes translation of
any message list containing that image part fail with the invalid-format
error; the failure propagates and the part is never silently skipped. -/
theorem c4_invalid_url_error :
    matchDataUrl "data:image/png,QUJD" = none ∧
    matchDataUrl "data:video/mp4;base64,QUJD" = none ∧
    ∀ url : String, matchDataUrl url = none →
      ∀ role : String, role ≠ "system" →
        ∀ pre : List ContentPart, (∀ p ∈ pre, ∃ t, p = ContentPart.text t) →
          ∀ post : List ContentPart, ∀ ms : List Message,
            process_messages
              (⟨role, Content.parts (pre ++ ContentPart.image_url url :: post)⟩ :: ms) =
              Except.error "Invalid data URL format." := by
  refine ⟨by decide, by decide, ?_⟩
  intro url hurl role hrole pre hpre post ms
  have hblob : base64_to_blob url = Except.error "Invalid data URL format." := by
    unfold base64_to_blob
    rw [hurl]
  have herr : processParts (ContentPart.image_url url :: post) =
      Except.error "Invalid data URL format." := by
    simp [processParts, hblob]
  have h2 := processParts_texts_error pre hpre _ _ herr
  simp [process_messages, hrole, h2]

/-- C4 (witness): a user message carrying a non-image data URL fails
translation with the invalid-format error. -/
theorem c4_invalid_url_error_witness :
    process_messages [⟨"user", Content.parts
      [ContentPart.text "look", ContentPart.image_url "data:video/mp4;base64,QUJD"]⟩] =
      Except.error "Invalid data URL format." := by
  have h := c4_invalid_url_error.2.2 "data:video/mp4;base64,QUJD" (by decide)
    "user" (by decide) [ContentPart.text "look"]
    (by
      intro p hp
      simp only [List.mem_singleton] at hp
      exact ⟨"look", hp⟩) [] []
  simpa using h

/-- C5: extraction is total — an absent response yields the empty list,
otherwise the result has one entry per candidate, and a candidate that is
absent or lacks the content/parts structure yields an absence marker at
its position rather than an exception. -/
theorem c5_extract_total :
    get_text_from_all_candidates GResponse.absent = [] ∧
    (∀ cs : List (Option GCandidate),
      (get_text_from_all_candidates (GResponse.withCandidates cs)).length = cs.length) ∧
    (∀ cs : List (Option GCandidate), ∀ i : Nat, i < cs.length →
      (cs.getD i none = none ∨
        ∃ c : GCandidate, cs.getD i none = some c ∧ c.contentParts = none) →
      (get_text_from_all_candidates (GResponse.withCandidates cs)).getD i (some "") =
        none) := by
  refine ⟨rfl, fun cs => by simp [get_text_from_all_candidates], ?_⟩
  intro cs i hi hcase
  simp only [get_text_from_all_candidates]
  rw [List.getD_eq_getElem?_getD, List.getElem?_map]
  have hv : cs[i]? = some (cs.getD i none) := by
    rw [List.getD_eq_getElem?_getD]
    cases h : cs[i]? with
    | none =>
        exact absurd (List.getElem?_eq_none_iff.mp h) (by omega)
    | some v => simp
  rw [hv]
  rcases hcase with h | ⟨c, hc, hcp⟩
  · rw [h]
    rfl
  · rw [hc]
    simp [extractCandidate, hcp]

/-- C5 (witness): a two-candidate response with an absent candidate and a
candidate lacking parts stays total and reports absence at position one. -/
theorem c5_extract_total_witness :
    (get_text_from_all_candidates
      (GResponse.withCandidates [none, some ⟨none⟩])).getD 1 (some "") = none :=
  c5_extract_total.2.2 [none, some ⟨none⟩] 1 (by decide) (Or.inr ⟨⟨none⟩, rfl, rfl⟩)

/-- C6: for a candidate with the content/parts structure, extraction emits
the concatenation, in part order with no separator, of the text of every
text part not flagged as a thought, and the absence marker when no such
part exists; parts "a" then "b" give "ab", and a lone thought part gives
absence. -/
theorem c6_extract_concat :
    (∀ ps : List GPart, extractCandidate (some ⟨some ps⟩) =
      if ps.any specQualifying then some (specText ps) else none) ∧
    extractCandidate (some ⟨some [⟨some "a", false, []⟩, ⟨some "b", false, []⟩]⟩) =
      some "ab" ∧
    extractCandidate (some ⟨some [⟨some "inner reasoning", true, []⟩]⟩) = none := by
  exact ⟨fun ps => extractCandidate_spec ps, by decide, by decide⟩

/-- C7: whenever cost tracking is disabled, a successful `chat_completion`
returns a cost of exactly zero, regardless of the messages, the pricing
table, or the response. -/
theorem c7_cost_zero_when_disabled (cfg : Config) (hc : cfg.enableCostTracking = false)
    (ms : List Message) (n : Nat) (temperature : Option ℚ) (maxTokens : Option Nat)
    (topP : Option ℚ) (kwargs : List (String × String))
    (remote : List Prompt → GenConfig → GResponse)
    (res : List (Option String)) (cost : ℚ)
    (h : chat_completion cfg ms n temperature maxTokens topP kwargs remote =
      Except.ok (res, cost)) :
    cost = 0 := by
  unfold chat_completion at h
  cases hpm : process_messages ms with
  | error e =>
      rw [hpm] at h
      simp at h
  | ok l =>
      rw [hpm] at h
      simp [hc] at h
      exact h.2.symm

/-- C7 (witness): with cost tracking off and a nonempty pricing table, a
concrete call returns cost zero. -/
theorem c7_cost_zero_when_disabled_witness :
    chat_completion
      ⟨"gemini-pro", 3, 1024, 1, 1, false, [("gemini-pro", 1/100, 1/50)]⟩
      [⟨"user", Content.parts [ContentPart.text "hello"]⟩] 1 none none none []
      (fun _ _ => GResponse.absent) = Except.ok ([], 0) ∧ (0 : ℚ) = 0 :=
  ⟨by rfl, c7_cost_zero_when_disabled
    ⟨"gemini-pro", 3, 1024, 1, 1, false, [("gemini-pro", 1/100, 1/50)]⟩ rfl
    [⟨"user", Content.parts [ContentPart.text "hello"]⟩] 1 none none none []
    (fun _ _ => GResponse.absent) [] 0 (by rfl)⟩

/-- C8: a content part whose type is neither text nor image_url is
silently skipped by translation — no element is emitted, no error is
raised, and the translation of the surrounding parts is unchanged. -/
theorem c8_skip_unknown_parts (role : String) (hrole : role ≠ "system") (ty : String)
    (pre post : List ContentPart) (ms : List Message) :
    process_messages (⟨role, Content.parts (pre ++ ContentPart.other ty :: post)⟩ :: ms) =
      process_messages (⟨role, Content.parts (pre ++ post)⟩ :: ms) := by
  have h := processParts_skip_other pre ty post
  simp [process_messages, hrole, h]

/-- C8 (witness): dropping an audio-typed part from between two text parts
leaves the translation unchanged. -/
theorem c8_skip_unknown_parts_witness :
    process_messages [⟨"user", Content.parts [ContentPart.text "a",
      ContentPart.other "audio", ContentPart.text "b"]⟩] =
      process_messages [⟨"user", Content.parts [ContentPart.text "a",
        ContentPart.text "b"]⟩] := by
  have h := c8_skip_unknown_parts "user" (by decide) "audio"
    [ContentPart.text "a"] [ContentPart.text "b"] []
  simpa using h

/-- C9: for fixed messages, generation parameters and provider response,
the result of `chat_completion` is identical for all values of `n` and of
the extra keyword arguments — neither is referenced by the request. -/
theorem c9_n_kwargs_noop (cfg : Config) (ms : List Message) (n n2 : Nat)
    (temperature : Option ℚ) (maxTokens : Option Nat) (topP : Option ℚ)
    (kwargs kwargs2 : List (String × String))
    (remote : List Prompt → GenConfig → GResponse) :
    chat_completion cfg ms n temperature maxTokens topP kwargs remote =
      chat_completion cfg ms n2 temperature maxTokens topP kwargs2 remote := rfl

/-- C10: a data URL with an empty base64 payload is rejected with the
invalid-format error even though decoding the empty payload would give the
empty byte string, and a mime type of exactly image/ with no subtype is
rejected as well. -/
theorem c10_empty_payload_rejected :
    base64_to_blob "data:image/png;base64," = Except.error "Invalid data URL format." ∧
    b64decode "" = Except.ok [] ∧
    base64_to_blob "data:image/;base64,QUJD" = Except.error "Invalid data URL format." := by
  exact ⟨by rfl, rfl, by rfl⟩

end Gemini
